import Mathlib

/-!
# quiet_hn: the story-fetch pipeline of `main.go`

A shallow embedding of `getCachedStories`, `getTopStories`, `getStories`,
`isStoryLink` and `parseHNItem`, followed by the properties proved about them.

Conventions of the embedding.

* A Go function returning `([]item, error)` is modelled by `Outcome`: either the
  returned pair, or a run-time panic (a slice expression out of range).
* A loop that may spin forever is modelled with a fuel argument; `none` means the
  fuel ran out, every other answer is what the Go code computes.
* The goroutines of `getStories` complete in an arbitrary order: the order in which
  their results arrive on the channel is a parameter (`Schedule`).
* The network is a parameter (`Client`): the listing returned by `TopItems`, and one
  lookup outcome per request made by `GetItem`.
* A slice expression on a Go slice is bounded by the capacity of the slice, not by its
  length. The listing is therefore a `Listing`: its IDs, and the elements of its
  backing array between its length and its capacity, which `ids[current:current+need]`
  can reach.
* The clock is a parameter: every `time.Now()` of the source is an explicit reading.
* Go `int` is 64 bit; the arithmetic of the over-fetch window wraps accordingly.
-/

namespace QuietHN

/-! ## Data model -/

/-- Modelled from the spec: the record `hn.Item` of the upstream client package, which
is not part of the sources. The spec gives it a type tag, a URL (possibly empty)
and further fields that are passed through untouched; `ID` and `Title` stand for
those. -/
structure hn.Item where
  ID : Int
  Title : String
  Type' : String
  URL : String
  deriving DecidableEq, Repr

/-- The struct `item` of `main.go`: the embedded `hn.Item` plus the `Host` field. -/
structure item where
  Item : hn.Item
  Host : String
  deriving DecidableEq, Repr

/-- The zero value of `hn.Item`. -/
def hn.Item.zero : hn.Item := { ID := 0, Title := "", Type' := "", URL := "" }

/-- The zero value of `item`. -/
def item.zero : item := { Item := hn.Item.zero, Host := "" }

/-- The part of the Go package `net/url` that `parseHNItem` calls: `url.Parse`, which
yields a parsed URL or an error, and the method `Hostname` of a parsed URL. The
package belongs to the Go standard library, so it is a parameter here. -/
structure NetURL (U : Type) where
  Parse : String → Except String U
  Hostname : U → String

/-- The slice of IDs that `TopItems` returns, as a Go slice: `ids` are its `len`
elements, `hidden` are the elements of its backing array from `len` up to `cap` (zeros
when the slice was decoded from JSON). -/
structure Listing where
  ids : List Int
  hidden : List Int
  deriving DecidableEq, Repr

/-- The backing array of a listing up to its capacity. -/
def Listing.backing (l : Listing) : List Int := l.ids ++ l.hidden

/-- The upstream client `hn.Client`, which is not part of the sources.
`TopItems` is the outcome of the listing call. `GetItem p id` is the outcome of
the lookup of `id` requested for position `p` of the backing array of the listing:
two requests for the same ID may end differently, so the outcome is not a function of
the ID alone. -/
structure Client where
  TopItems : Except String Listing
  GetItem : Nat → Int → Except String hn.Item

/-- The local struct `result` of `getStories`. -/
structure result where
  index : Nat
  item : item
  err : Option String
  deriving DecidableEq, Repr

/-- The order of completion of the goroutines of one `getStories` call: the results
arrive on the channel as some rearrangement of the results sent. -/
structure Schedule where
  order : List result → List result
  perm : ∀ l, (order l).Perm l

/-- The goroutines complete in the order in which they were started. -/
def Schedule.inOrder : Schedule := { order := id, perm := fun l => List.Perm.refl l }

/-- The goroutines complete in the reverse of the order in which they were started. -/
def Schedule.reversed : Schedule := { order := List.reverse, perm := List.reverse_perm }

/-- What a call of a Go function of type `([]item, error)` ends with. -/
inductive Outcome where
  | ret (stories : List item) (err : Option String)
  | panic
  deriving DecidableEq, Repr

/-! ## Go primitives -/

/-- Two's complement wrap-around of a 64 bit Go `int`. -/
def wrap64 (x : Int) : Int := (x + 2 ^ 63) % 2 ^ 64 - 2 ^ 63

/-- The slice expression `[lo:hi]` of Go on a slice whose backing array, up to its
capacity, is `s`: out of range (`none`, a run-time panic in Go) unless
`0 ≤ lo ≤ hi ≤ cap`, else the elements `lo .. hi-1` of the backing array. -/
def slice {α : Type} (s : List α) (lo hi : Int) : Option (List α) :=
  if 0 ≤ lo ∧ lo ≤ hi ∧ hi ≤ (s.length : Int) then
    some ((s.drop lo.toNat).take (hi - lo).toNat)
  else none

/-- Go's `strings.TrimPrefix`: `s` without the leading `pre` if it starts with it,
else `s` unchanged. -/
def TrimPrefix (s pre : String) : String :=
  if pre.data.isPrefixOf s.data then String.mk (s.data.drop pre.data.length) else s

/-- Go's `sort.Slice` with the comparison of `getStories`
(`results[i].index < results[j].index`), run as an insertion sort. The indices of the
results are distinct, so every sorting algorithm yields the same list
(`ordered_arrivals_unique`). -/
def sortSlice (results : List result) : List result :=
  results.insertionSort (fun a b => a.index < b.index)

/-! ## The package `net/url` of the Go standard library

The package is not part of the repository. `parseHNItem` is embedded over an arbitrary
`NetURL`; the definitions below transcribe `url.Parse` and `(*URL).Hostname` of the Go
distribution, so that `parseHNItem` can be evaluated on concrete URLs. A Go string is
a sequence of bytes; a byte is modelled by the character of the same code. -/

namespace url

/-- The fields that `url.Parse` fills in, user information apart. -/
structure URL where
  Scheme : String
  Opaque : String
  Host : String
  Path : String
  RawQuery : String
  Fragment : String
  deriving DecidableEq, Repr

/-- The modes of `unescape` that `url.Parse` uses. -/
inductive encoding where
  | encodePath
  | encodeHost
  | encodeZone
  | encodeUserPassword
  | encodeFragment
  deriving DecidableEq, Repr

/-- Go's `strings.Cut` for a one-byte separator: the text before the first `sep`, and
the text after it when there is one. -/
def cut (sep : Char) : List Char → List Char × Option (List Char)
  | [] => ([], none)
  | c :: cs =>
    if c = sep then ([], some cs)
    else ((c :: (cut sep cs).1), (cut sep cs).2)

/-- The split of `s` at the last `sep` (`strings.LastIndex`): the text before it and
the text after it, or `none` when `sep` does not occur. -/
def cutLast (sep : Char) (s : List Char) : Option (List Char × List Char) :=
  match cut sep s.reverse with
  | (_, none) => none
  | (after, some before) => some (before.reverse, after.reverse)

/-- The split of `s` at the first occurrence of `%25` (`strings.Index`): the text
before it and the text from it on. -/
def cutZone : List Char → Option (List Char × List Char)
  | [] => none
  | c :: cs =>
    if ['%', '2', '5'].isPrefixOf (c :: cs) then some ([], c :: cs)
    else match cutZone cs with
      | none => none
      | some (a, b) => some (c :: a, b)

def stringContainsCTLByte (s : List Char) : Bool :=
  s.any (fun b => b.toNat < 0x20 || b.toNat == 0x7f)

def ishex (c : Char) : Bool :=
  ('0' ≤ c && c ≤ '9') || ('a' ≤ c && c ≤ 'f') || ('A' ≤ c && c ≤ 'F')

def unhex (c : Char) : Nat :=
  if '0' ≤ c ∧ c ≤ '9' then c.toNat - '0'.toNat
  else if 'a' ≤ c ∧ c ≤ 'f' then c.toNat - 'a'.toNat + 10
  else if 'A' ≤ c ∧ c ≤ 'F' then c.toNat - 'A'.toNat + 10
  else 0

/-- Go's `shouldEscape(c, encodeHost)`. -/
def shouldEscapeHost (c : Char) : Bool :=
  !(c.isAlphanum || "!$&'()*+,;=:[]<>\"".data.contains c || "-_.~".data.contains c)

/-- Go's `unescape`, for the modes of `encoding`: the text with every `%XX` replaced
by the byte it stands for, or an error. A byte is the character of that code. -/
def unescape (mode : encoding) : List Char → Except String (List Char)
  | [] => .ok []
  | '%' :: h :: l :: rest =>
    if !(ishex h && ishex l) then .error "invalid URL escape"
    else if mode = .encodeHost ∧ unhex h < 8 ∧ (h, l) ≠ ('2', '5') then
      .error "invalid URL escape"
    else if mode = .encodeZone ∧ (h, l) ≠ ('2', '5') ∧ unhex h * 16 + unhex l ≠ 0x20 ∧
        shouldEscapeHost (Char.ofNat (unhex h * 16 + unhex l)) then
      .error "invalid URL escape"
    else
      match unescape mode rest with
      | .error e => .error e
      | .ok t => .ok (Char.ofNat (unhex h * 16 + unhex l) :: t)
  | c :: cs =>
    if c = '%' then .error "invalid URL escape"
    else if (mode = .encodeHost ∨ mode = .encodeZone) ∧ c.toNat < 0x80 ∧ shouldEscapeHost c then
      .error "invalid character in host name"
    else
      match unescape mode cs with
      | .error e => .error e
      | .ok t => .ok (c :: t)

/-- Go's `getScheme`: the scheme and the text after its colon, or no scheme and the
whole text. `i` is what was read so far. -/
def getScheme (rawURL : List Char) : List Char → List Char → Except String (List Char × List Char)
  | _, [] => .ok ([], rawURL)
  | i, c :: cs =>
    if c.isAlpha then getScheme rawURL (i ++ [c]) cs
    else if c.isDigit ∨ c = '+' ∨ c = '-' ∨ c = '.' then
      if i = [] then .ok ([], rawURL) else getScheme rawURL (i ++ [c]) cs
    else if c = ':' then
      if i = [] then .error "missing protocol scheme" else .ok (i, cs)
    else .ok ([], rawURL)

def validOptionalPort : List Char → Bool
  | [] => true
  | c :: cs => c = ':' && cs.all (fun b => '0' ≤ b && b ≤ '9')

def validUserinfo (s : List Char) : Bool :=
  s.all (fun r => r.isAlphanum || "-._:~!$&'()*+,;=%@".data.contains r)

/-- Go's `parseHost`. -/
def parseHost (host : List Char) : Except String (List Char) :=
  match host with
  | '[' :: _ =>
    match cutLast ']' host with
    | none => .error "missing ']' in host"
    | some (lit, colonPort) =>
      if !validOptionalPort colonPort then .error "invalid port after host"
      else
        match cutZone lit with
        | some (h1, zone) =>
          match unescape .encodeHost h1, unescape .encodeZone zone,
              unescape .encodeHost (']' :: colonPort) with
          | .ok host1, .ok host2, .ok host3 => .ok (host1 ++ host2 ++ host3)
          | .error e, _, _ => .error e
          | _, .error e, _ => .error e
          | _, _, .error e => .error e
        | none => unescape .encodeHost host
  | _ =>
    match cutLast ':' host with
    | some (_, port) =>
      if !validOptionalPort (':' :: port) then .error "invalid port after host"
      else unescape .encodeHost host
    | none => unescape .encodeHost host

/-- Go's `parseAuthority`, its host part: the user information is checked and then
dropped. -/
def parseAuthority (authority : List Char) : Except String (List Char) :=
  match cutLast '@' authority with
  | none => parseHost authority
  | some (userinfo, hostport) =>
    match parseHost hostport with
    | .error e => .error e
    | .ok host =>
      if !validUserinfo userinfo then .error "net/url: invalid userinfo"
      else
        match unescape .encodeUserPassword (cut ':' userinfo).1,
            unescape .encodeUserPassword ((cut ':' userinfo).2.getD []) with
        | .ok _, .ok _ => .ok host
        | .error e, _ => .error e
        | _, .error e => .error e

/-- Go's unexported `parse(rawURL, false)`. -/
def parse (rawURL : List Char) : Except String URL :=
  if stringContainsCTLByte rawURL then .error "net/url: invalid control character in URL"
  else if rawURL = ['*'] then
    .ok { Scheme := "", Opaque := "", Host := "", Path := "*", RawQuery := "", Fragment := "" }
  else
    match getScheme rawURL [] rawURL with
    | .error e => .error e
    | .ok (scheme, afterScheme) =>
      let Scheme := String.mk (scheme.map Char.toLower)
      let rest := (cut '?' afterScheme).1
      let RawQuery := String.mk ((cut '?' afterScheme).2.getD [])
      if rest.head? ≠ some '/' ∧ scheme ≠ [] then
        .ok { Scheme := Scheme, Opaque := String.mk rest, Host := "", Path := "",
              RawQuery := RawQuery, Fragment := "" }
      else if rest.head? ≠ some '/' ∧ (cut '/' rest).1.contains ':' then
        .error "first path segment in URL cannot contain colon"
      else if (scheme ≠ [] ∨ !(['/', '/', '/'].isPrefixOf rest)) ∧ ['/', '/'].isPrefixOf rest then
        let authority := (cut '/' (rest.drop 2)).1
        let path := (rest.drop 2).drop authority.length
        match parseAuthority authority, unescape .encodePath path with
        | .error e, _ => .error e
        | .ok _, .error e => .error e
        | .ok host, .ok p =>
          .ok { Scheme := Scheme, Opaque := "", Host := String.mk host, Path := String.mk p,
                RawQuery := RawQuery, Fragment := "" }
      else
        match unescape .encodePath rest with
        | .error e => .error e
        | .ok p =>
          .ok { Scheme := Scheme, Opaque := "", Host := "", Path := String.mk p,
                RawQuery := RawQuery, Fragment := "" }

/-- Go's `url.Parse`. -/
def Parse (rawURL : String) : Except String URL :=
  match parse (cut '#' rawURL.data).1 with
  | .error e => .error e
  | .ok u =>
    match (cut '#' rawURL.data).2 with
    | none => .ok u
    | some frag =>
      match unescape .encodeFragment frag with
      | .error e => .error e
      | .ok f => .ok { u with Fragment := String.mk f }

/-- Go's `splitHostPort`, its host part. -/
def splitHostPort (hostPort : List Char) : List Char :=
  let host :=
    match cutLast ':' hostPort with
    | some (h, port) => if validOptionalPort (':' :: port) then h else hostPort
    | none => hostPort
  if host.head? = some '[' ∧ host.getLast? = some ']' then (host.drop 1).dropLast else host

/-- Go's method `(*URL).Hostname`. -/
def Hostname (u : URL) : String := String.mk (splitHostPort u.Host.data)

end url

/-- The package `net/url` of the Go standard library. -/
def goURL : NetURL url.URL := { Parse := url.Parse, Hostname := url.Hostname }

/-! ## The functions of `main.go` -/

section Code

variable {U : Type} (net : NetURL U)

/-- The function `parseHNItem` of `main.go`. -/
def parseHNItem (hnItem : hn.Item) : item :=
  let ret : item := { Item := hnItem, Host := "" }
  match net.Parse ret.Item.URL with
  | .ok url => { ret with Host := TrimPrefix (net.Hostname url) "www." }
  | .error _ => ret

/-- The function `isStoryLink` of `main.go`. -/
def isStoryLink (it : item) : Bool :=
  it.Item.Type' == "story" && it.Item.URL != ""

/-- What the goroutine started for position `i` sends on the channel. -/
def send (GetItem : Nat → Int → Except String hn.Item) (i : Nat) (id : Int) : result :=
  match GetItem i id with
  | .error e => { index := i, item := item.zero, err := some e }
  | .ok hnItem => { index := i, item := parseHNItem net hnItem, err := none }

/-- The results sent by the goroutines of `getStories`, listed by position. -/
def sent (GetItem : Nat → Int → Except String hn.Item) (ids : List Int) : List result :=
  ids.enum.map (fun p => send net GetItem p.1 p.2)

/-- The last loop of `getStories`: walk the results, skip the failed ones, keep the
story links. -/
def keepStories (results : List result) : List item :=
  results.foldl
    (fun stories res =>
      if res.err.isSome then stories
      else if isStoryLink res.item then stories ++ [res.item] else stories)
    []

/-- What one result contributes in the last loop of `getStories`. -/
def keepOne (res : result) : Option item :=
  if res.err.isSome then none else if isStoryLink res.item then some res.item else none

/-- The function `getStories` of `main.go`: `len(ids)` results are received from the
channel in the order `sched` delivers them, sorted by index, and filtered. -/
def getStories (sched : Schedule) (GetItem : Nat → Int → Except String hn.Item)
    (ids : List Int) : List item :=
  let results := (sched.order (sent net GetItem ids)).take ids.length
  keepStories (sortSlice results)

/-- The value of `need` in a round of `getTopStories` that starts with
`have_` stories accumulated. -/
def need (numStories : Int) (have_ : Nat) : Int :=
  Int.tdiv (wrap64 (wrap64 (numStories - have_) * 5)) 4

/-- The loop of `getTopStories` and its final `stories[:numStories]`. The window
`ids[current:current+need]` is in range as long as it ends within the capacity of `ids`;
past `len(ids)` it holds hidden elements of the backing array. In
`stories[:numStories]` the capacity of `stories` plays no part: the loop is left with
`numStories ≤ len(stories)`, so the expression is out of range only for a negative
`numStories`. Besides the outcome, a run reports the windows `(current, current+need)`
it requested from `ids`, in order (`log` holds those of the rounds already done). -/
def topLoop (client : Client) (ids : Listing) (numStories : Int) :
    Nat → (Nat → Schedule) → List item → Int → List (Int × Int) →
      Option (Outcome × List (Int × Int))
  | 0, _, _, _, _ => none
  | fuel + 1, sched, stories, current, log =>
    if (stories.length : Int) < numStories then
      let hi := wrap64 (current + need numStories stories.length)
      match slice ids.backing current hi with
      | none => some (Outcome.panic, log ++ [(current, hi)])
      | some window =>
        topLoop client ids numStories fuel (fun k => sched (k + 1))
          (stories ++ getStories net (sched 0)
            (fun i id => client.GetItem (current.toNat + i) id) window)
          hi (log ++ [(current, hi)])
    else
      match slice stories 0 numStories with
      | none => some (Outcome.panic, log)
      | some top => some (Outcome.ret top none, log)

/-- The function `getTopStories` of `main.go`. -/
def getTopStories (client : Client) (sched : Nat → Schedule) (fuel : Nat)
    (numStories : Int) : Option (Outcome × List (Int × Int)) :=
  match client.TopItems with
  | .error _ => some (Outcome.ret [] (some "Failed to load top stories"), [])
  | .ok ids => topLoop net client ids numStories fuel sched [] 0 []

end Code

/-! ## The clock and the cache -/

/-- Go's `time.Second`, in nanoseconds. -/
def time.Second : Int := 1000000000

/-- Go's `Time.Sub` on instants counted in nanoseconds: the difference, saturated to
the range of a `time.Duration` (a 64 bit integer). -/
def time.Sub (t u : Int) : Int :=
  if t - u > 2 ^ 63 - 1 then 2 ^ 63 - 1
  else if t - u < -(2 ^ 63) then -(2 ^ 63)
  else t - u

/-- Go's `Time.Add` on instants counted in nanoseconds. -/
def time.Add (t d : Int) : Int := t + d

/-- The package-level variables `cache` and `cacheExpiration` of `main.go`. -/
structure Slot where
  cache : List item
  cacheExpiration : Int
  deriving DecidableEq, Repr

/-- What one call of `getCachedStories` does: what it returns (`none` when the call
never returns), the variables `cache` and `cacheExpiration` afterwards, and the
arguments of the calls of `getTopStories` it made. -/
structure Call where
  out : Option Outcome
  slot : Slot
  fetches : List Int
  deriving DecidableEq, Repr

section Cache

variable {U : Type} (net : NetURL U)

/-- The function `getCachedStories` of `main.go`. `now₁` is the reading of the
`time.Now()` of the expiry test, `now₂` the reading of the `time.Now()` taken after
`getTopStories` has returned. -/
def getCachedStories (client : Client) (sched : Nat → Schedule) (fuel : Nat)
    (now₁ now₂ : Int) (s : Slot) (numStories : Int) : Call :=
  if time.Sub now₁ s.cacheExpiration < 0 then
    { out := some (Outcome.ret s.cache none), slot := s, fetches := [] }
  else
    match getTopStories net client sched fuel numStories with
    | none => { out := none, slot := s, fetches := [numStories] }
    | some (Outcome.panic, _) =>
      { out := some Outcome.panic, slot := s, fetches := [numStories] }
    | some (Outcome.ret _ (some err), _) =>
      { out := some (Outcome.ret [] (some err)), slot := s, fetches := [numStories] }
    | some (Outcome.ret stories none, _) =>
      { out := some (Outcome.ret stories none),
        slot := { cache := stories, cacheExpiration := time.Add now₂ (10 * time.Second) },
        fetches := [numStories] }

end Cache

/-! ## What the spec says the functions compute -/

section Spec

variable {U : Type} (net : NetURL U)

/-- What the lookup at position `p` of a listing contributes to the stories: nothing
when the lookup failed, nothing when the item is not a story with a non-empty URL, else
the item passed through `parseHNItem`. -/
def pick (GetItem : Nat → Int → Except String hn.Item) (p : Nat) (id : Int) : Option item :=
  match GetItem p id with
  | .error _ => none
  | .ok hnItem =>
    if hnItem.Type' = "story" ∧ hnItem.URL ≠ "" then some (parseHNItem net hnItem) else none

/-- The qualifying items of a listing in listing order, the first ID being at position
`base`. -/
def qualifying (GetItem : Nat → Int → Except String hn.Item) (base : Nat) (ids : List Int) :
    List item :=
  (ids.enumFrom base).filterMap (fun p => pick net GetItem p.1 p.2)

end Spec

/-! ## The window log and the spec's window size -/

/-- Whether the windows of `log` follow one another without gap or overlap, the first
one starting at `start`. -/
def contiguous : Int → List (Int × Int) → Bool
  | _, [] => true
  | start, w :: ws => w.1 == start && contiguous w.2 ws

/-- The window size as the spec words it, `ceil(r * 1.25)` in exact arithmetic, for
`r` stories still missing. -/
def needSpec (r : Int) : Int := ⌈(r : ℚ) * (5 / 4)⌉

/-- The lookups of `GetItem`, except that the one at position `x` fails with `e`. -/
def failAt (GetItem : Nat → Int → Except String hn.Item) (x : Nat) (e : String) :
    Nat → Int → Except String hn.Item :=
  fun p id => if p = x then .error e else GetItem p id

/-! ## Fixtures -/

/-- A story with an external link. -/
def story (id : Int) : hn.Item :=
  { ID := id, Title := "title", Type' := "story", URL := "https://www.example.com/a" }

/-- A comment: no story, no URL. -/
def comment (id : Int) : hn.Item :=
  { ID := id, Title := "", Type' := "comment", URL := "" }

/-- A listing of four IDs in a slice of capacity four, each of them a story with a
link. -/
def fourStories : Client where
  TopItems := .ok { ids := [1, 2, 3, 4], hidden := [] }
  GetItem := fun _ id => .ok (story id)

/-- A listing of five IDs in a slice of capacity eight, as `encoding/json` allocates it:
three hidden zeros. ID 3 is a comment; every other lookup, the one of ID 0 included,
yields a story with a link. -/
def fiveOfEight : Client where
  TopItems := .ok { ids := [1, 2, 3, 4, 5], hidden := [0, 0, 0] }
  GetItem := fun _ id => if id = 3 then .ok (comment id) else .ok (story id)

/-- A listing of five IDs in a slice of capacity eight; every lookup yields a comment. -/
def fiveComments : Client where
  TopItems := .ok { ids := [1, 2, 3, 4, 5], hidden := [0, 0, 0] }
  GetItem := fun _ id => .ok (comment id)

/-- The pool of the spec: 100 IDs, every fourth of them a story with a link. -/
def pool100 : Client where
  TopItems := .ok { ids := (List.range 100).map Int.ofNat, hidden := [] }
  GetItem := fun _ id => if id % 4 = 3 then .ok (story id) else .ok (comment id)

/-- An upstream whose listing call fails. -/
def listingDown : Client where
  TopItems := .error "503"
  GetItem := fun _ _ => .error "503"

/-- Lookups that succeed with a story, except the one at position 1, which times out. -/
def flaky : Nat → Int → Except String hn.Item :=
  fun p id => if p = 1 then .error "timeout" else .ok (story id)

/-- Every round completes in reverse order. -/
def lastFirst : Nat → Schedule := fun _ => Schedule.reversed

/-- The cache variables at process start: no stories, the zero `time.Time` (year 1),
counted in nanoseconds from the Unix epoch. -/
def Slot.startup : Slot := { cache := [], cacheExpiration := -62135596800 * time.Second }

/-- Lower case of an ASCII text. -/
def lowercase (s : String) : String := String.mk (s.data.map Char.toLower)

/-- The `Host` that `parseHNItem` derives from a URL: what `url.Hostname` reports, less a
leading `www.`, if the URL parses, else the zero value. -/
def hostOf {U : Type} (net : NetURL U) (URL : String) : String :=
  match net.Parse URL with
  | .ok u => TrimPrefix (net.Hostname u) "www."
  | .error _ => ""

/-- The `Host` field as the spec words it: the lowercase hostname of the URL with one
leading `www.` stripped, or empty if the URL does not parse. -/
def hostSpec {U : Type} (net : NetURL U) (URL : String) : String :=
  match net.Parse URL with
  | .ok u => TrimPrefix (lowercase (net.Hostname u)) "www."
  | .error _ => ""

/-- An item whose URL carries upper case letters in its host. -/
def shouting : hn.Item :=
  { ID := 7, Title := "title", Type' := "story", URL := "https://WWW.Example.com/a" }

/-! ## Properties -/

section Properties

variable {U : Type} (net : NetURL U)

theorem foldl_keep (l : List result) (acc : List item) :
    l.foldl (fun stories res =>
      if res.err.isSome then stories
      else if isStoryLink res.item then stories ++ [res.item] else stories) acc
      = acc ++ l.filterMap keepOne := by
  induction l generalizing acc with
  | nil => simp
  | cons a t ih =>
    simp only [List.foldl_cons, ih, List.filterMap_cons, keepOne]
    by_cases h1 : a.err.isSome = true
    · simp [h1]
    · by_cases h2 : isStoryLink a.item = true
      · simp [h1, h2]
      · simp [h1, h2]

theorem keepStories_eq (l : List result) : keepStories l = l.filterMap keepOne := by
  unfold keepStories
  rw [foldl_keep]; simp

theorem parseHNItem_Item (h : hn.Item) : (parseHNItem net h).Item = h := by
  unfold parseHNItem
  simp only
  split <;> rfl

theorem keepOne_send (GetItem : Nat → Int → Except String hn.Item) (i : Nat) (id : Int) :
    keepOne (send net GetItem i id) = pick net GetItem i id := by
  unfold send pick keepOne
  cases h : GetItem i id with
  | error e => simp
  | ok v =>
    simp only [Option.isSome_none, Bool.false_eq_true, if_false, isStoryLink, parseHNItem_Item]
    by_cases h1 : v.Type' = "story" <;> by_cases h2 : v.URL = "" <;> simp [h1, h2]


theorem send_index (GetItem : Nat → Int → Except String hn.Item) (i : Nat) (id : Int) :
    (send net GetItem i id).index = i := by
  unfold send
  split <;> rfl

theorem sorted_orderedInsert (a : result) :
    ∀ s : List result, s.Sorted (fun x y => x.index < y.index) →
      (∀ b ∈ s, a.index ≠ b.index) →
      (s.orderedInsert (fun x y => x.index < y.index) a).Sorted (fun x y => x.index < y.index)
  | [], _, _ => by simp
  | b :: s, hs, hne => by
    have hs' := List.sorted_cons.mp hs
    by_cases hab : a.index < b.index
    · rw [List.orderedInsert, if_pos hab]
      refine List.sorted_cons.mpr ⟨?_, hs⟩
      intro c hc
      rcases List.mem_cons.mp hc with rfl | hc
      · exact hab
      · exact lt_trans hab (hs'.1 c hc)
    · rw [List.orderedInsert, if_neg hab]
      have hba : b.index < a.index :=
        lt_of_le_of_ne (not_lt.mp hab) (fun h => hne b (List.mem_cons_self _ _) h.symm)
      refine List.sorted_cons.mpr ⟨?_, sorted_orderedInsert a s hs'.2
        (fun c hc => hne c (List.mem_cons_of_mem _ hc))⟩
      intro c hc
      have hc' : c ∈ a :: s := (List.perm_orderedInsert _ a s).mem_iff.mp hc
      rcases List.mem_cons.mp hc' with rfl | hc'
      · exact hba
      · exact hs'.1 c hc'

theorem sorted_sortSlice :
    ∀ l : List result, l.Pairwise (fun x y => x.index ≠ y.index) →
      (sortSlice l).Sorted (fun x y => x.index < y.index)
  | [], _ => by simp [sortSlice]
  | a :: l, h => by
    have h' := List.pairwise_cons.mp h
    have ih := sorted_sortSlice l h'.2
    unfold sortSlice at ih ⊢
    rw [List.insertionSort]
    refine sorted_orderedInsert a _ ih ?_
    intro b hb
    exact h'.1 b ((List.perm_insertionSort _ l).mem_iff.mp hb)

theorem sorted_sentFrom (GetItem : Nat → Int → Except String hn.Item) :
    ∀ (ids : List Int) (base : Nat),
      ((ids.enumFrom base).map (fun p => send net GetItem p.1 p.2)).Sorted
        (fun x y => x.index < y.index) ∧
      ∀ r ∈ (ids.enumFrom base).map (fun p => send net GetItem p.1 p.2), base ≤ r.index
  | [], _ => by simp
  | id :: ids, base => by
    obtain ⟨h1, h2⟩ := sorted_sentFrom GetItem ids (base + 1)
    simp only [List.enumFrom_cons, List.map_cons]
    constructor
    · refine List.sorted_cons.mpr ⟨?_, h1⟩
      intro r hr
      have := h2 r hr
      rw [send_index]; omega
    · intro r hr
      rcases List.mem_cons.mp hr with rfl | hr
      · rw [send_index]
      · have := h2 r hr; omega

theorem sorted_sent (GetItem : Nat → Int → Except String hn.Item) (ids : List Int) :
    (sent net GetItem ids).Sorted (fun x y => x.index < y.index) :=
  (sorted_sentFrom net GetItem ids 0).1

/-- Sorting any arrival order of the results sent restores the order of sending. -/
theorem sortSlice_arrivals (GetItem : Nat → Int → Except String hn.Item) (ids : List Int)
    (arrived : List result) (h : arrived.Perm (sent net GetItem ids)) :
    sortSlice arrived = sent net GetItem ids := by
  have hs := sorted_sent net GetItem ids
  have hne : arrived.Pairwise (fun x y => x.index ≠ y.index) := by
    have : (sent net GetItem ids).Pairwise (fun x y => x.index ≠ y.index) :=
      List.Pairwise.imp (fun h => ne_of_lt h) hs
    exact h.symm.pairwise this (fun h => fun e => h e.symm)
  have h1 := sorted_sortSlice arrived hne
  have hp : (sortSlice arrived).Perm (sent net GetItem ids) :=
    (List.perm_insertionSort _ arrived).trans h
  haveI : IsAntisymm result (fun x y => x.index < y.index) :=
    ⟨fun _ _ h1 h2 => absurd h1 (lt_asymm h2)⟩
  exact List.eq_of_perm_of_sorted hp h1 hs

/-- Any rearrangement of the results sent that is ordered by index is the list of the
results in sending order: whichever algorithm `sort.Slice` runs, its output here is the
one of `sortSlice`. -/
theorem ordered_arrivals_unique (GetItem : Nat → Int → Except String hn.Item) (ids : List Int)
    (sorted : List result) (hp : sorted.Perm (sent net GetItem ids))
    (hs : sorted.Sorted (fun x y => x.index ≤ y.index)) :
    sorted = sent net GetItem ids ∧ sorted = sortSlice sorted := by
  have hsent := sorted_sent net GetItem ids
  have hne : sorted.Pairwise (fun x y => x.index ≠ y.index) :=
    hp.symm.pairwise (List.Pairwise.imp (fun h => ne_of_lt h) hsent)
      (fun h => fun e => h e.symm)
  have hlt : sorted.Sorted (fun x y => x.index < y.index) :=
    (List.Pairwise.and hs hne).imp (fun h => lt_of_le_of_ne h.1 h.2)
  haveI : IsAntisymm result (fun x y => x.index < y.index) :=
    ⟨fun _ _ h1 h2 => absurd h1 (lt_asymm h2)⟩
  have h1 := List.eq_of_perm_of_sorted hp hlt hsent
  exact ⟨h1, by rw [sortSlice_arrivals net GetItem ids sorted hp, h1]⟩

theorem length_sent (GetItem : Nat → Int → Except String hn.Item) (ids : List Int) :
    (sent net GetItem ids).length = ids.length := by
  simp [sent]

theorem keepStories_sent (GetItem : Nat → Int → Except String hn.Item) (ids : List Int) :
    keepStories (sent net GetItem ids) = qualifying net GetItem 0 ids := by
  rw [keepStories_eq]
  unfold sent qualifying
  rw [List.enum, List.filterMap_map]
  congr 1
  funext p
  exact keepOne_send net GetItem p.1 p.2

theorem collect_arrivals (GetItem : Nat → Int → Except String hn.Item) (ids : List Int)
    (arrived : List result) (hp : arrived.Perm (sent net GetItem ids)) :
    keepStories (sortSlice (arrived.take ids.length)) = qualifying net GetItem 0 ids := by
  have hlen : arrived.length = ids.length := by
    rw [hp.length_eq, length_sent]
  rw [List.take_of_length_le (le_of_eq hlen), sortSlice_arrivals net GetItem ids _ hp,
    keepStories_sent]

theorem getStories_eq (sched : Schedule) (GetItem : Nat → Int → Except String hn.Item)
    (ids : List Int) :
    getStories net sched GetItem ids = qualifying net GetItem 0 ids :=
  collect_arrivals net GetItem ids _ (sched.perm _)

theorem need_exact (numStories : Int) (have_ : Nat) (h1 : (have_ : Int) < numStories)
    (h2 : (numStories - have_) * 5 < 2 ^ 63) :
    need numStories have_ = (numStories - have_) * 5 / 4 ∧ 1 ≤ need numStories have_ := by
  have e1 : wrap64 (numStories - have_) = numStories - have_ := by
    unfold wrap64; norm_num at h2 ⊢; omega
  have e2 : wrap64 ((numStories - have_) * 5) = (numStories - have_) * 5 := by
    unfold wrap64; norm_num at h2 ⊢; omega
  unfold need
  rw [e1, e2, Int.tdiv_eq_ediv (by omega) (by norm_num)]
  constructor
  · rfl
  · omega

theorem wrap64_window (current nd hi : Int) (h0 : 0 ≤ current) (h1 : 1 ≤ nd)
    (h2 : nd < 2 ^ 63) (h3 : wrap64 (current + nd) = hi) (h4 : current ≤ hi) :
    hi = current + nd := by
  unfold wrap64 at h3; norm_num at h2 h3 ⊢; omega

theorem slice_eq_some {α : Type} (s : List α) (lo hi : Int) (w : List α)
    (h : slice s lo hi = some w) :
    0 ≤ lo ∧ lo ≤ hi ∧ hi ≤ (s.length : Int) ∧ w = (s.drop lo.toNat).take (hi - lo).toNat := by
  unfold slice at h
  split at h
  · rename_i hc
    simp only [Option.some.injEq] at h
    exact ⟨hc.1, hc.2.1, hc.2.2, h.symm⟩
  · simp at h

theorem slice_eq_none {α : Type} (s : List α) (lo hi : Int) (h : slice s lo hi = none) :
    ¬ (0 ≤ lo ∧ lo ≤ hi ∧ hi ≤ (s.length : Int)) := by
  unfold slice at h
  split at h
  · simp at h
  · assumption

theorem take_window {α : Type} (s : List α) (lo hi : Int) (h0 : 0 ≤ lo) (h1 : lo ≤ hi) :
    s.take hi.toNat = s.take lo.toNat ++ (s.drop lo.toNat).take (hi - lo).toNat := by
  have : hi.toNat = lo.toNat + (hi - lo).toNat := by omega
  rw [this, List.take_add]

theorem pick_shift (GetItem : Nat → Int → Except String hn.Item) (c p : Nat) (id : Int) :
    pick net (fun i id => GetItem (c + i) id) p id = pick net GetItem (c + p) id := rfl

theorem qualifying_shift (GetItem : Nat → Int → Except String hn.Item) (c : Nat) :
    ∀ (ids : List Int) (b : Nat),
      qualifying net (fun i id => GetItem (c + i) id) b ids = qualifying net GetItem (c + b) ids
  | [], _ => rfl
  | id :: ids, b => by
    have ih := qualifying_shift GetItem c ids (b + 1)
    unfold qualifying at ih ⊢
    simp only [List.enumFrom_cons, List.filterMap_cons]
    rw [ih, pick_shift, Nat.add_assoc]

theorem qualifying_append (GetItem : Nat → Int → Except String hn.Item) (b : Nat)
    (l₁ l₂ : List Int) :
    qualifying net GetItem b (l₁ ++ l₂) =
      qualifying net GetItem b l₁ ++ qualifying net GetItem (b + l₁.length) l₂ := by
  unfold qualifying
  rw [List.enumFrom_append, List.filterMap_append]

theorem topLoop_succ (client : Client) (ids : Listing) (numStories : Int) (fuel : Nat)
    (sched : Nat → Schedule) (stories : List item) (current : Int) (log : List (Int × Int)) :
    topLoop net client ids numStories (fuel + 1) sched stories current log =
      if (stories.length : Int) < numStories then
        match slice ids.backing current (wrap64 (current + need numStories stories.length)) with
        | none =>
          some (Outcome.panic,
            log ++ [(current, wrap64 (current + need numStories stories.length))])
        | some window =>
          topLoop net client ids numStories fuel (fun k => sched (k + 1))
            (stories ++ getStories net (sched 0)
              (fun i id => client.GetItem (current.toNat + i) id) window)
            (wrap64 (current + need numStories stories.length))
            (log ++ [(current, wrap64 (current + need numStories stories.length))])
      else
        match slice stories 0 numStories with
        | none => some (Outcome.panic, log)
        | some top => some (Outcome.ret top none, log) := rfl



theorem round_stories (client : Client) (arr : List Int) (sched : Schedule)
    (current hi : Int) (w : List Int)
    (hw : slice arr current hi = some w) :
    qualifying net client.GetItem 0 (arr.take current.toNat) ++
        getStories net sched (fun i id => client.GetItem (current.toNat + i) id) w =
      qualifying net client.GetItem 0 (arr.take hi.toNat) := by
  obtain ⟨h0, h1, h2, rfl⟩ := slice_eq_some arr current hi w hw
  rw [getStories_eq, qualifying_shift, take_window arr current hi h0 h1, qualifying_append]
  have hl : (arr.take current.toNat).length = current.toNat := by
    rw [List.length_take]; omega
  rw [hl, Nat.zero_add, Nat.add_zero]

/-- The windows requested in a run follow one another, whatever the arithmetic does. -/
theorem topLoop_log_contiguous (client : Client) (ids : Listing) (numStories : Int) :
    ∀ (fuel : Nat) (sched : Nat → Schedule) (stories : List item) (current : Int)
      (log : List (Int × Int)) (out : Outcome) (log' : List (Int × Int)),
      topLoop net client ids numStories fuel sched stories current log = some (out, log') →
      ∃ ext, log' = log ++ ext ∧ contiguous current ext = true
  | 0, _, _, _, _, _, _, h => by simp [topLoop] at h
  | fuel + 1, sched, stories, current, log, out, log', h => by
    rw [topLoop_succ] at h
    split at h
    · split at h
      · simp only [Option.some.injEq, Prod.mk.injEq] at h
        exact ⟨[(current, wrap64 (current + need numStories stories.length))], h.2.symm,
          by simp [contiguous]⟩
      · obtain ⟨ext, hext, hc⟩ := topLoop_log_contiguous client ids numStories fuel _ _ _ _
          out log' h
        refine ⟨(current, wrap64 (current + need numStories stories.length)) :: ext, ?_, ?_⟩
        · rw [hext, List.append_assoc, List.singleton_append]
        · simp [contiguous, hc]
    · split at h
      · simp only [Option.some.injEq, Prod.mk.injEq] at h
        exact ⟨[], by simp [h.2], rfl⟩
      · simp only [Option.some.injEq, Prod.mk.injEq] at h
        exact ⟨[], by simp [h.2], rfl⟩

/-- A run that returns stories returns the first `numStories` qualifying items of the
part of the backing array that ends at `bound`, provided no window ends beyond
`bound`. -/
theorem topLoop_ret_within (client : Client) (ids : Listing) (numStories : Int) (bound : Nat) :
    ∀ (fuel : Nat) (sched : Nat → Schedule) (stories : List item) (current : Int)
      (log : List (Int × Int)) (s : List item) (e : Option String) (log' : List (Int × Int)),
      stories = qualifying net client.GetItem 0 (ids.backing.take current.toNat) →
      current ≤ bound → (∀ w ∈ log', w.2 ≤ (bound : Int)) →
      topLoop net client ids numStories fuel sched stories current log
        = some (Outcome.ret s e, log') →
      e = none ∧ 0 ≤ numStories ∧ (s.length : Int) = numStories ∧
        s = (qualifying net client.GetItem 0 (ids.backing.take bound)).take numStories.toNat
  | 0, _, _, _, _, _, _, _, _, _, _, h => by simp [topLoop] at h
  | fuel + 1, sched, stories, current, log, s, e, log', hinv, hcur, hlog, h => by
    rw [topLoop_succ] at h
    split at h
    · split at h
      · simp at h
      · rename_i window hw
        obtain ⟨ext, hext, _⟩ := topLoop_log_contiguous net client ids numStories fuel _ _ _ _
          _ log' h
        have hhi : wrap64 (current + need numStories stories.length) ≤ (bound : Int) :=
          hlog (current, wrap64 (current + need numStories stories.length))
            (by rw [hext]; simp)
        refine topLoop_ret_within client ids numStories bound fuel _ _ _ _ s e log' ?_ hhi hlog h
        rw [← round_stories net client ids.backing (sched 0) current _ window hw, ← hinv]
    · rename_i hge
      split at h
      · simp at h
      · rename_i top ht
        obtain ⟨_, h1, h2, rfl⟩ := slice_eq_some stories 0 numStories _ ht
        simp only [Option.some.injEq, Prod.mk.injEq, Outcome.ret.injEq] at h
        obtain ⟨⟨rfl, rfl⟩, _⟩ := h
        simp only [Int.toNat_zero, List.drop_zero, sub_zero]
        refine ⟨trivial, h1, ?_, ?_⟩
        · rw [List.length_take]; omega
        · have htake : (ids.backing.take bound).take current.toNat
              = ids.backing.take current.toNat := by
            rw [List.take_take, Nat.min_eq_left (by omega)]
          have hsplit : qualifying net client.GetItem 0 (ids.backing.take bound) =
              stories ++ qualifying net client.GetItem
                (0 + ((ids.backing.take bound).take current.toNat).length)
                ((ids.backing.take bound).drop current.toNat) := by
            rw [hinv, ← htake, ← qualifying_append, List.take_append_drop]
          rw [hsplit, List.take_append_of_le_length (by omega)]

/-- Every window of a run that returns stories ends within the capacity. -/
theorem topLoop_ret_windows (client : Client) (ids : Listing) (numStories : Int) :
    ∀ (fuel : Nat) (sched : Nat → Schedule) (stories : List item) (current : Int)
      (log : List (Int × Int)) (s : List item) (e : Option String) (log' : List (Int × Int)),
      topLoop net client ids numStories fuel sched stories current log
        = some (Outcome.ret s e, log') →
      ∃ ext, log' = log ++ ext ∧ ∀ w ∈ ext, w.2 ≤ (ids.backing.length : Int)
  | 0, _, _, _, _, _, _, _, h => by simp [topLoop] at h
  | fuel + 1, sched, stories, current, log, s, e, log', h => by
    rw [topLoop_succ] at h
    split at h
    · split at h
      · simp at h
      · rename_i window hw
        obtain ⟨_, _, hcap, _⟩ := slice_eq_some ids.backing current _ window hw
        obtain ⟨ext, hext, hall⟩ := topLoop_ret_windows client ids numStories fuel _ _ _ _
          s e log' h
        refine ⟨(current, wrap64 (current + need numStories stories.length)) :: ext, ?_, ?_⟩
        · rw [hext, List.append_assoc, List.singleton_append]
        · intro w hw'
          rcases List.mem_cons.mp hw' with rfl | hw'
          · exact hcap
          · exact hall w hw'
    · split at h
      · simp at h
      · simp only [Option.some.injEq, Prod.mk.injEq] at h
        exact ⟨[], by simp [h.2], by simp⟩

/-- A run that returns stories returns the first `numStories` qualifying items of the
backing array of the listing. -/
theorem topLoop_ret (client : Client) (ids : Listing) (numStories : Int)
    (fuel : Nat) (sched : Nat → Schedule) (s : List item) (e : Option String)
    (log' : List (Int × Int))
    (h : topLoop net client ids numStories fuel sched [] 0 [] = some (Outcome.ret s e, log')) :
    e = none ∧ 0 ≤ numStories ∧ (s.length : Int) = numStories ∧
      s = (qualifying net client.GetItem 0 ids.backing).take numStories.toNat := by
  obtain ⟨ext, hext, hall⟩ := topLoop_ret_windows net client ids numStories fuel sched [] 0 []
    s e log' h
  rw [List.nil_append] at hext
  have := topLoop_ret_within net client ids numStories ids.backing.length fuel sched [] 0 []
    s e log' (by simp [qualifying]) (by omega) (by rw [hext]; exact hall) h
  rwa [List.take_length] at this

theorem topLoop_total (client : Client) (ids : Listing) (numStories : Int)
    (h5 : numStories * 5 < 2 ^ 63) :
    ∀ (fuel : Nat) (sched : Nat → Schedule) (stories : List item) (current : Int)
      (log : List (Int × Int)),
      0 ≤ current → current ≤ ids.backing.length →
      (ids.backing.length : Int) + 1 ≤ fuel + current →
      ∃ (out : Outcome) (ext : List (Int × Int)),
        topLoop net client ids numStories fuel sched stories current log
          = some (out, log ++ ext) ∧
        (ext.length : Int) + current ≤ ids.backing.length + 1 ∧
        contiguous current ext = true ∧
        (∀ w ∈ ext, current ≤ w.1) ∧
        (ext.map Prod.fst).Sorted (fun a b => a < b) ∧
        (out = Outcome.panic ∨ ∃ s, out = Outcome.ret s none) ∧
        (out = Outcome.panic → numStories < 0 ∨
          ∃ pre w, ext = pre ++ [w] ∧ slice ids.backing w.1 w.2 = none)
  | 0, _, _, current, _, _, h1, h2 => by omega
  | fuel + 1, sched, stories, current, log, h0, h1, h2 => by
    rw [topLoop_succ]
    by_cases hlt : (stories.length : Int) < numStories
    · rw [if_pos hlt]
      obtain ⟨hn, hpos⟩ := need_exact numStories stories.length hlt (by norm_num at h5 ⊢; omega)
      have hlt63 : need numStories stories.length < 2 ^ 63 := by
        rw [hn]; norm_num at h5 ⊢; omega
      cases hs : slice ids.backing current (wrap64 (current + need numStories stories.length)) with
      | none =>
        refine ⟨Outcome.panic, [(current, _)], rfl, ?_, ?_, ?_, ?_, Or.inl rfl,
          fun _ => Or.inr ⟨[], _, rfl, hs⟩⟩
        · simp only [List.length_singleton]; push_cast; omega
        · simp [contiguous]
        · intro w hw; simp at hw; rw [hw]
        · simp
      | some window =>
        obtain ⟨_, hle, hhi, _⟩ := slice_eq_some ids.backing current _ window hs
        have hwin := wrap64_window current _ _ h0 hpos hlt63 rfl hle
        obtain ⟨out, ext, hrun, ha, hb, hc, hd, he, hf⟩ :=
          topLoop_total client ids numStories h5 fuel (fun k => sched (k + 1))
            (stories ++ getStories net (sched 0)
              (fun i id => client.GetItem (current.toNat + i) id) window)
            (wrap64 (current + need numStories stories.length))
            (log ++ [(current, wrap64 (current + need numStories stories.length))])
            (by omega) hhi (by push_cast at h2 ⊢; omega)
        refine ⟨out, (current, wrap64 (current + need numStories stories.length)) :: ext,
          ?_, ?_, ?_, ?_, ?_, he, ?_⟩
        · simp only [hrun, List.append_assoc, List.singleton_append]
        · simp only [List.length_cons]; push_cast; omega
        · simp [contiguous, hb]
        · intro w hw
          rcases List.mem_cons.mp hw with rfl | hw
          · exact le_refl _
          · have := hc w hw; omega
        · simp only [List.map_cons]
          refine List.sorted_cons.mpr ⟨?_, hd⟩
          intro b hb'
          obtain ⟨w, hw, rfl⟩ := List.mem_map.mp hb'
          have := hc w hw; omega
        · intro hp
          rcases hf hp with hneg | ⟨pre, w, hext, hw⟩
          · left; exact hneg
          · right; exact ⟨_ :: pre, w, by rw [hext]; rfl, hw⟩
    · rw [if_neg hlt]
      cases hs : slice stories 0 numStories with
      | none =>
        refine ⟨Outcome.panic, [], by simp, by simp; omega, rfl, by simp, by simp, Or.inl rfl,
          fun _ => Or.inl ?_⟩
        have := slice_eq_none stories 0 numStories hs
        omega
      | some top =>
        exact ⟨Outcome.ret top none, [], by simp, by simp; omega, rfl, by simp, by simp,
          Or.inr ⟨top, rfl⟩, fun h => by simp at h⟩

theorem qualifying_mem (GetItem : Nat → Int → Except String hn.Item) (b : Nat) (ids : List Int)
    (it : item) (h : it ∈ qualifying net GetItem b ids) :
    it.Item.Type' = "story" ∧ it.Item.URL ≠ "" := by
  unfold qualifying at h
  obtain ⟨p, _, hp⟩ := List.mem_filterMap.mp h
  unfold pick at hp
  split at hp
  · simp at hp
  · split at hp
    · rename_i hq
      simp only [Option.some.injEq] at hp
      rw [← hp, parseHNItem_Item]
      exact hq
    · simp at hp

/-- C1 (what the code does). Whenever `getTopStories(want)` returns without error, the
listing call had succeeded and the stories returned are the first `want` qualifying items
of the backing array of the listing, IDs first, hidden elements after: failed lookups
dropped, only items of type story with a non-empty URL kept, each passed through
`parseHNItem`. If no window of the run ended beyond `len(ids)`, these are the first
`want` qualifying items of the listing itself, in listing order. -/
theorem getTopStories_returns_prefix_of_backing (client : Client) (sched : Nat → Schedule)
    (fuel : Nat) (want : Int) (s : List item) (log : List (Int × Int))
    (hret : getTopStories net client sched fuel want = some (Outcome.ret s none, log)) :
    ∃ l, client.TopItems = .ok l ∧
      s = (qualifying net client.GetItem 0 (l.ids ++ l.hidden)).take want.toNat ∧
      (s.length : Int) = want ∧
      (∀ it ∈ s, it.Item.Type' = "story" ∧ it.Item.URL ≠ "") ∧
      ((∀ w ∈ log, w.2 ≤ (l.ids.length : Int)) →
        s = (qualifying net client.GetItem 0 l.ids).take want.toNat ∧
        s.Sublist (qualifying net client.GetItem 0 l.ids)) := by
  unfold getTopStories at hret
  split at hret
  · simp at hret
  · rename_i l hl
    obtain ⟨_, _, hlen, hs⟩ := topLoop_ret net client l want fuel sched s none log hret
    refine ⟨l, hl, hs, hlen, ?_, ?_⟩
    · intro it hit
      rw [hs] at hit
      exact qualifying_mem net client.GetItem 0 _ it (List.mem_of_mem_take hit)
    · intro hwin
      obtain ⟨_, _, _, hs'⟩ := topLoop_ret_within net client l want l.ids.length fuel sched
        [] 0 [] s none log (by simp [qualifying]) (by omega) hwin hret
      have htake : l.backing.take l.ids.length = l.ids := by
        unfold Listing.backing
        rw [List.take_left']
        rfl
      rw [htake] at hs'
      refine ⟨hs', ?_⟩
      rw [hs']
      exact List.take_sublist _ _

/-- C10 (as amended). With `0 ≤ want` and `want * 5` within the 64 bit range, the loop of
`getTopStories` cannot hang: while stories are missing the window size `need` is at
least 1; run on a listing `ids`, the function ends within `cap(ids) + 1` rounds
(any fuel from `cap(ids) + 1` on is enough), either
returning stories without error or with the out-of-range panic; the windows requested
follow one another from position 0 and their start positions strictly increase; and for
`want = 0` the empty list is returned and no window is requested. -/
theorem getTopStories_never_hangs (GetItem : Nat → Int → Except String hn.Item)
    (ids : Listing) (sched : Nat → Schedule) (fuel : Nat) (want : Int)
    (h0 : 0 ≤ want) (h5 : want * 5 < 2 ^ 63) (hfuel : ids.backing.length + 1 ≤ fuel) :
    (∀ have_ : Nat, (have_ : Int) < want → 1 ≤ need want have_) ∧
    ∃ (out : Outcome) (log : List (Int × Int)),
      getTopStories net { TopItems := .ok ids, GetItem := GetItem } sched fuel want
        = some (out, log) ∧
      log.length ≤ ids.backing.length + 1 ∧
      contiguous 0 log = true ∧
      (log.map Prod.fst).Sorted (fun a b => a < b) ∧
      (out = Outcome.panic ∨ ∃ s, out = Outcome.ret s none) ∧
      (out = Outcome.panic → ∃ pre w, log = pre ++ [w] ∧ slice ids.backing w.1 w.2 = none) ∧
      (want = 0 → out = Outcome.ret [] none ∧ log = []) := by
  constructor
  · intro have_ hlt
    exact (need_exact want have_ hlt (by norm_num at h5 ⊢; omega)).2
  · obtain ⟨out, ext, hrun, ha, hb, _, hd, he, hf⟩ :=
      topLoop_total net { TopItems := .ok ids, GetItem := GetItem } ids want h5
        fuel sched [] 0 [] (le_refl 0) (by omega) (by omega)
    rw [List.nil_append] at hrun
    refine ⟨out, ext, hrun, by omega, hb, hd, he, ?_, ?_⟩
    · intro hp
      rcases hf hp with hneg | h
      · omega
      · exact h
    · intro hw
      subst hw
      obtain ⟨k, rfl⟩ : ∃ k, fuel = k + 1 := ⟨fuel - 1, by omega⟩
      have : topLoop net { TopItems := .ok ids, GetItem := GetItem } ids 0 (k + 1)
          sched [] 0 [] = some (Outcome.ret [] none, []) := by
        rw [topLoop_succ]; simp [slice]
      rw [this] at hrun
      simp only [Option.some.injEq, Prod.mk.injEq] at hrun
      exact ⟨hrun.1.symm, hrun.2.symm⟩

/-- C3 (what the code does). When `want` exceeds the number of qualifying items that the
backing array of the listing holds up to its capacity (and `want * 5` is within the
64 bit range), `getTopStories` ends with a run-time panic: the last window it requests
from `ids` ends beyond the capacity. No partial result and no error value is returned. -/
theorem getTopStories_panics_when_exhausted (GetItem : Nat → Int → Except String hn.Item)
    (ids : Listing) (sched : Nat → Schedule) (fuel : Nat) (want : Int)
    (hmore : ((qualifying net GetItem 0 ids.backing).length : Int) < want)
    (h5 : want * 5 < 2 ^ 63) (hfuel : ids.backing.length + 1 ≤ fuel) :
    ∃ (pre : List (Int × Int)) (w : Int × Int),
      getTopStories net { TopItems := .ok ids, GetItem := GetItem } sched fuel want
        = some (Outcome.panic, pre ++ [w]) ∧
      slice ids.backing w.1 w.2 = none := by
  obtain ⟨out, ext, hrun, _, _, _, _, he, hf⟩ :=
    topLoop_total net { TopItems := .ok ids, GetItem := GetItem } ids want h5
      fuel sched [] 0 [] (le_refl 0) (by omega) (by omega)
  rw [List.nil_append] at hrun
  have hp : out = Outcome.panic := by
    rcases he with hp | ⟨s, hs⟩
    · exact hp
    · rw [hs] at hrun
      obtain ⟨_, _, hlen, hs'⟩ :=
        topLoop_ret net { TopItems := .ok ids, GetItem := GetItem } ids want fuel
          sched s none ext hrun
      have : s.length ≤ (qualifying net GetItem 0 ids.backing).length := by
        rw [hs']; exact (List.take_sublist _ _).length_le
      omega
  rcases hf hp with hneg | ⟨pre, w, hext, hw⟩
  · have : (0 : Int) ≤ ((qualifying net GetItem 0 ids.backing).length : Int) :=
      Int.natCast_nonneg _
    omega
  · refine ⟨pre, w, ?_, hw⟩
    unfold getTopStories
    simp only
    rw [hrun, hp, hext]

theorem qualifying_congr (G G' : Nat → Int → Except String hn.Item) :
    ∀ (ids : List Int) (b : Nat),
      (∀ p id, b ≤ p → p < b + ids.length → G p id = G' p id) →
      qualifying net G b ids = qualifying net G' b ids
  | [], _, _ => rfl
  | id :: ids, b, h => by
    have ih := qualifying_congr G G' ids (b + 1) (fun p i h1 h2 =>
      h p i (by omega) (by simp only [List.length_cons]; omega))
    unfold qualifying at ih ⊢
    simp only [List.enumFrom_cons, List.filterMap_cons]
    have hp : pick net G b id = pick net G' b id := by
      unfold pick
      rw [h b id (le_refl b) (by simp)]
    rw [hp, ih]

theorem sent_index (GetItem : Nat → Int → Except String hn.Item) (ids : List Int) :
    (sent net GetItem ids).map result.index = List.range ids.length := by
  unfold sent
  rw [List.map_map]
  have : (result.index ∘ fun p : Nat × Int => send net GetItem p.1 p.2) = Prod.fst := by
    funext p
    exact send_index net GetItem p.1 p.2
  rw [this, List.enum_map_fst]

/-- C7. Whatever the order in which the goroutines complete, `getStories(ids)` returns
the same list: the qualifying items of the successful lookups, by increasing input
position. Exactly `len(ids)` results are collected and their indices are the positions
`0 .. len(ids)-1`, each once. The same holds for every list `arrived`
that is a rearrangement of the results sent. A lookup that fails at position `len(l₁)`
contributes nothing and leaves the entries of the other positions as they are. -/
theorem getStories_any_completion_order (sched : Schedule)
    (GetItem : Nat → Int → Except String hn.Item) (ids l₁ l₂ : List Int) (x : Int)
    (e : String) :
    getStories net sched GetItem ids = qualifying net GetItem 0 ids ∧
    getStories net sched GetItem ids = getStories net Schedule.inOrder GetItem ids ∧
    ((sched.order (sent net GetItem ids)).take ids.length).length = ids.length ∧
    (((sched.order (sent net GetItem ids)).take ids.length).map result.index).Perm
      (List.range ids.length) ∧
    (∀ arrived : List result, arrived.Perm (sent net GetItem ids) →
      keepStories (sortSlice (arrived.take ids.length)) = qualifying net GetItem 0 ids) ∧
    getStories net sched (failAt GetItem l₁.length e) (l₁ ++ x :: l₂) =
      qualifying net GetItem 0 l₁ ++ qualifying net GetItem (l₁.length + 1) l₂ := by
  have hlen : (sched.order (sent net GetItem ids)).length = ids.length := by
    rw [(sched.perm _).length_eq, length_sent]
  refine ⟨getStories_eq net sched GetItem ids, ?_, ?_, ?_, ?_, ?_⟩
  · rw [getStories_eq, getStories_eq]
  · rw [List.take_of_length_le (le_of_eq hlen), hlen]
  · rw [List.take_of_length_le (le_of_eq hlen), ← sent_index net GetItem ids]
    exact (sched.perm _).map _
  · intro arrived hp
    exact collect_arrivals net GetItem ids arrived hp
  · rw [getStories_eq, qualifying_append]
    congr 1
    · apply qualifying_congr
      intro p id _ h2
      unfold failAt
      rw [if_neg (by omega)]
    · have hx : pick net (failAt GetItem l₁.length e) (0 + l₁.length) x = none := by
        unfold pick failAt
        simp
      unfold qualifying
      simp only [List.enumFrom_cons, List.filterMap_cons, hx]
      have := qualifying_congr net (failAt GetItem l₁.length e) GetItem l₂ (0 + l₁.length + 1)
        (fun p id h1 _ => by unfold failAt; rw [if_neg (by omega)])
      unfold qualifying at this
      rw [this, Nat.zero_add]

/-- C9 (what the code does). In a round of `getTopStories` that starts with `r = want -
len(stories) ≥ 1` stories missing, `r * 5` and `current + need` being within the 64 bit
range, the number of IDs requested is `need = floor(r * 5 / 4)`, rounded down and not
up: for `r` = 1, 2, 3 no extra ID is requested. The window is
`ids[current : current+need]`, taken from the backing array of `ids`, and the next round
starts at `current + need`, the end of this window; the windows requested from this
round on follow one another without gap or overlap. -/
theorem round_requests_floor_window (client : Client) (ids : Listing) (want : Int)
    (fuel : Nat) (sched : Nat → Schedule) (stories : List item) (current : Int)
    (log : List (Int × Int))
    (hr : 1 ≤ want - stories.length)
    (h5 : (want - stories.length) * 5 < 2 ^ 63)
    (h0 : 0 ≤ current)
    (hc : current + (want - stories.length) * 5 / 4 < 2 ^ 63) :
    need want stories.length = ⌊((want - stories.length : Int) : ℚ) * (5 / 4)⌋ ∧
    need want stories.length = (want - stories.length) * 5 / 4 ∧
    topLoop net client ids want (fuel + 1) sched stories current log =
      (match slice ids.backing current (current + need want stories.length) with
        | none => some (Outcome.panic, log ++ [(current, current + need want stories.length)])
        | some window =>
          topLoop net client ids want fuel (fun k => sched (k + 1))
            (stories ++ getStories net (sched 0)
              (fun i id => client.GetItem (current.toNat + i) id) window)
            (current + need want stories.length)
            (log ++ [(current, current + need want stories.length)])) ∧
    (∀ window, slice ids.backing current (current + need want stories.length) = some window →
      window = (ids.backing.drop current.toNat).take (need want stories.length).toNat) ∧
    ∀ out log', topLoop net client ids want (fuel + 1) sched stories current log
        = some (out, log') →
      ∃ ext, log' = log ++ ext ∧ contiguous current ext = true := by
  obtain ⟨hn, hpos⟩ := need_exact want stories.length (by omega) h5
  have hw : wrap64 (current + need want stories.length) = current + need want stories.length := by
    rw [hn]; unfold wrap64; norm_num at hc ⊢; omega
  refine ⟨?_, hn, ?_, ?_, ?_⟩
  · rw [hn]
    have : ((want - stories.length : Int) : ℚ) * (5 / 4)
        = (((want - stories.length) * 5 : Int) : ℚ) / ((4 : ℕ) : ℚ) := by
      push_cast; ring
    rw [this, Rat.floor_intCast_div_natCast]
    rfl
  · rw [topLoop_succ, if_pos (by omega), hw]
  · intro window hwin
    obtain ⟨_, _, _, h⟩ := slice_eq_some ids.backing current _ window hwin
    rw [h]
    congr 2
    omega
  · intro out log' h
    exact topLoop_log_contiguous net client ids want (fuel + 1) sched stories current log
      out log' h

theorem time_Sub_neg (t u : Int) : time.Sub t u < 0 ↔ t < u := by
  unfold time.Sub
  split_ifs <;> norm_num at * <;> omega

theorem getCachedStories_hit (client : Client) (sched : Nat → Schedule) (fuel : Nat)
    (now₁ now₂ : Int) (s : Slot) (want : Int) (h : now₁ < s.cacheExpiration) :
    getCachedStories net client sched fuel now₁ now₂ s want =
      { out := some (Outcome.ret s.cache none), slot := s, fetches := [] } := by
  unfold getCachedStories
  rw [if_pos ((time_Sub_neg _ _).mpr h)]

theorem getCachedStories_miss (client : Client) (sched : Nat → Schedule) (fuel : Nat)
    (now₁ now₂ : Int) (s : Slot) (want : Int) (h : s.cacheExpiration ≤ now₁) :
    (getCachedStories net client sched fuel now₁ now₂ s want).fetches = [want] ∧
    ((getCachedStories net client sched fuel now₁ now₂ s want).out = none ↔
      getTopStories net client sched fuel want = none) := by
  unfold getCachedStories
  rw [if_neg (fun hn => absurd ((time_Sub_neg _ _).mp hn) (not_lt.mpr h))]
  split <;> simp_all

/-- C4. While the clock reading of the expiry test is before `cacheExpiration`,
`getCachedStories` returns `cache` with no error, makes no call of `getTopStories` and
leaves `cache` and `cacheExpiration` as they were; nothing of this depends on the
count asked for, nor on the upstream. From `cacheExpiration` on (that instant
included) `getTopStories` is called, once, with the count asked for. -/
theorem getCachedStories_fresh_hit (client : Client) (sched : Nat → Schedule) (fuel : Nat)
    (now₁ now₂ : Int) (s : Slot) (want : Int) :
    (now₁ < s.cacheExpiration →
      getCachedStories net client sched fuel now₁ now₂ s want =
        { out := some (Outcome.ret s.cache none), slot := s, fetches := [] }) ∧
    (s.cacheExpiration ≤ now₁ →
      (getCachedStories net client sched fuel now₁ now₂ s want).fetches = [want] ∧
      ((getCachedStories net client sched fuel now₁ now₂ s want).out = none ↔
        getTopStories net client sched fuel want = none)) := by
  exact ⟨getCachedStories_hit net client sched fuel now₁ now₂ s want,
    getCachedStories_miss net client sched fuel now₁ now₂ s want⟩

/-- C5. Once the cache has expired, if `getTopStories` fails with error `e` then
`getCachedStories` returns no stories and the error `e`, and `cache` and
`cacheExpiration` are exactly what they were before the call. -/
theorem getCachedStories_failure_keeps_slot (client : Client) (sched : Nat → Schedule)
    (fuel : Nat) (now₁ now₂ : Int) (s : Slot) (want : Int) (st : List item) (e : String)
    (lg : List (Int × Int))
    (hexp : s.cacheExpiration ≤ now₁)
    (hfail : getTopStories net client sched fuel want = some (Outcome.ret st (some e), lg)) :
    getCachedStories net client sched fuel now₁ now₂ s want =
      { out := some (Outcome.ret [] (some e)), slot := s, fetches := [want] } := by
  unfold getCachedStories
  rw [if_neg (fun hn => absurd ((time_Sub_neg _ _).mp hn) (not_lt.mpr hexp)), hfail]

/-- C6 (as amended). Two successive calls, the first on an expired cache with a compute
that succeeds with stories `r₁`. The first call reads the clock at `t0` for the expiry
test and at `t1` after the compute: it calls `getTopStories` once and leaves
`cache = r₁`, `cacheExpiration = t1 + 10s`. The second call reads the clock at `t2`:
if `t2 < t1 + 10s` it makes no call and returns `r₁`, so one call in all; if
`t2 ≥ t1 + 10s` it calls `getTopStories` again, so two calls in all. Since `t0 ≤ t1`,
`t2 - t0 < 10s` always leads to one call in all. -/
theorem two_calls_share_one_fetch_within_ttl (client₁ client₂ : Client)
    (sched₁ sched₂ : Nat → Schedule) (fuel₁ fuel₂ : Nat) (t0 t1 t2 t3 : Int) (s : Slot)
    (want₁ want₂ : Int) (r₁ : List item) (lg : List (Int × Int))
    (hexp : s.cacheExpiration ≤ t0)
    (hok : getTopStories net client₁ sched₁ fuel₁ want₁ = some (Outcome.ret r₁ none, lg)) :
    getCachedStories net client₁ sched₁ fuel₁ t0 t1 s want₁ =
      { out := some (Outcome.ret r₁ none),
        slot := { cache := r₁, cacheExpiration := t1 + 10 * time.Second },
        fetches := [want₁] } ∧
    (t2 < t1 + 10 * time.Second →
      getCachedStories net client₂ sched₂ fuel₂ t2 t3
          (getCachedStories net client₁ sched₁ fuel₁ t0 t1 s want₁).slot want₂ =
        { out := some (Outcome.ret r₁ none),
          slot := { cache := r₁, cacheExpiration := t1 + 10 * time.Second },
          fetches := [] }) ∧
    (t1 + 10 * time.Second ≤ t2 →
      (getCachedStories net client₂ sched₂ fuel₂ t2 t3
          (getCachedStories net client₁ sched₁ fuel₁ t0 t1 s want₁).slot want₂).fetches
        = [want₂]) ∧
    (t0 ≤ t1 → t2 - t0 < 10 * time.Second →
      (getCachedStories net client₁ sched₁ fuel₁ t0 t1 s want₁).fetches.length +
        (getCachedStories net client₂ sched₂ fuel₂ t2 t3
          (getCachedStories net client₁ sched₁ fuel₁ t0 t1 s want₁).slot want₂).fetches.length
        = 1) := by
  have h1 : getCachedStories net client₁ sched₁ fuel₁ t0 t1 s want₁ =
      { out := some (Outcome.ret r₁ none),
        slot := { cache := r₁, cacheExpiration := t1 + 10 * time.Second },
        fetches := [want₁] } := by
    unfold getCachedStories
    rw [if_neg (fun hn => absurd ((time_Sub_neg _ _).mp hn) (not_lt.mpr hexp)), hok]
    rfl
  have h2 : t2 < t1 + 10 * time.Second →
      getCachedStories net client₂ sched₂ fuel₂ t2 t3
          { cache := r₁, cacheExpiration := t1 + 10 * time.Second } want₂ =
        { out := some (Outcome.ret r₁ none),
          slot := { cache := r₁, cacheExpiration := t1 + 10 * time.Second },
          fetches := [] } := by
    intro h
    exact getCachedStories_hit net client₂ sched₂ fuel₂ t2 t3 _ want₂ h
  rw [h1]
  refine ⟨rfl, h2, ?_, ?_⟩
  · intro h
    exact (getCachedStories_miss net client₂ sched₂ fuel₂ t2 t3 _ want₂ h).1
  · intro h01 h
    rw [h2 (by omega)]
    rfl

theorem parseHNItem_Host (hnItem : hn.Item) :
    (parseHNItem net hnItem).Host = hostOf net hnItem.URL := by
  unfold parseHNItem hostOf
  simp only
  split <;> rfl

/-- C8 (as amended). `parseHNItem` never fails. The item it returns embeds the input
unchanged; its `Host` is the hostname that `url.Hostname` reports for the parsed URL,
letter case kept, with one leading literal `www.` stripped, and is empty when the URL
fails to parse. With Go's `net/url`: `https://www.example.com/a` gives `example.com`,
`http://sub.example.com` gives `sub.example.com`, the malformed `://bad` gives the empty
host, the empty URL gives the empty host, only one `www.` is stripped, and upper case
letters of the host stay as they are. -/
theorem parseHNItem_host (hnItem : hn.Item) (id : Int) (title ty : String) :
    (parseHNItem net hnItem).Item = hnItem ∧
    (parseHNItem net hnItem).Host =
      (match net.Parse hnItem.URL with
        | .ok u => TrimPrefix (net.Hostname u) "www."
        | .error _ => "") ∧
    (parseHNItem goURL
      { ID := id, Title := title, Type' := ty, URL := "https://www.example.com/a" }).Host
        = "example.com" ∧
    (parseHNItem goURL
      { ID := id, Title := title, Type' := ty, URL := "http://sub.example.com" }).Host
        = "sub.example.com" ∧
    (parseHNItem goURL { ID := id, Title := title, Type' := ty, URL := "://bad" }).Host = "" ∧
    (parseHNItem goURL { ID := id, Title := title, Type' := ty, URL := "" }).Host = "" ∧
    (parseHNItem goURL
      { ID := id, Title := title, Type' := ty, URL := "https://www.www.example.com/" }).Host
        = "www.example.com" ∧
    (parseHNItem goURL
      { ID := id, Title := title, Type' := ty, URL := "https://WWW.Example.com/a" }).Host
        = "WWW.Example.com" := by
  refine ⟨parseHNItem_Item net hnItem, ?_, ?_, ?_, ?_, ?_, ?_, ?_⟩
  · rw [parseHNItem_Host]; rfl
  all_goals (rw [parseHNItem_Host]; dsimp only; decide)

/-- C8 (counterexample). For the URL `https://WWW.Example.com/a` the code sets `Host`
to `WWW.Example.com`, which is not lower case; the lowercase hostname with `www.`
stripped would be `example.com`. -/
theorem parseHNItem_host_keeps_upper_case :
    (parseHNItem goURL shouting).Host = "WWW.Example.com" ∧
    hostSpec goURL shouting.URL = "example.com" ∧
    (parseHNItem goURL shouting).Host ≠ hostSpec goURL shouting.URL ∧
    (parseHNItem goURL shouting).Host ≠ lowercase (parseHNItem goURL shouting).Host := by
  decide

/-- C2 (what the code does). When the capacity of the listing is less than the first
window, that is `cap(ids) < want * 5 / 4`, `getTopStories(want)` requests
`ids[0 : want*5/4]` and panics in its first round, however many of the IDs qualify: a
listing of `want` qualifying stories in a slice of capacity `want` is not enough to get
`want` stories back. -/
theorem getTopStories_overshoots_short_listing (GetItem : Nat → Int → Except String hn.Item)
    (ids : Listing) (sched : Nat → Schedule) (fuel : Nat) (want : Int)
    (h1 : 1 ≤ want) (h5 : want * 5 < 2 ^ 63)
    (hshort : (ids.backing.length : Int) < want * 5 / 4) :
    getTopStories net { TopItems := .ok ids, GetItem := GetItem } sched (fuel + 1) want =
      some (Outcome.panic, [(0, want * 5 / 4)]) := by
  obtain ⟨hn, _⟩ := need_exact want ([] : List item).length (by simpa using h1)
    (by simpa using h5)
  simp only [List.length_nil, Nat.cast_zero, sub_zero] at hn
  have hw : wrap64 (0 + need want 0) = want * 5 / 4 := by
    rw [hn]; unfold wrap64; norm_num at h5 ⊢; omega
  have hs : slice ids.backing 0 (want * 5 / 4) = none := by
    unfold slice
    rw [if_neg (by omega)]
  unfold getTopStories
  simp only
  rw [topLoop_succ, if_pos (by simpa using h1)]
  simp only [List.length_nil, hw, hs, List.nil_append]

/-- C2 at concrete inputs: four qualifying stories upstream, in a slice of capacity
four, and four asked for give a panic; on the pool of the spec (100 IDs, every fourth one qualifying) ten stories asked
for come back, the first ten qualifying ones in listing order, after ten rounds. -/
theorem getTopStories_overshoots_short_listing_witness :
    (qualifying goURL fourStories.GetItem 0 [1, 2, 3, 4]).length = 4 ∧
    ((({ ids := [1, 2, 3, 4], hidden := [] } : Listing).backing.length : Int)) < 4 * 5 / 4 ∧
    getTopStories goURL
      { TopItems := .ok { ids := [1, 2, 3, 4], hidden := [] }, GetItem := fourStories.GetItem }
      lastFirst (4 + 1) 4 = some (Outcome.panic, [(0, 4 * 5 / 4)]) ∧
    getTopStories goURL pool100 lastFirst 101 10 =
      some (Outcome.ret
          ([3, 7, 11, 15, 19, 23, 27, 31, 35, 39].map (fun k => parseHNItem goURL (story k)))
          none,
        [(0, 12), (12, 20), (20, 26), (26, 31), (31, 34), (34, 36), (36, 37), (37, 38),
          (38, 39), (39, 40)]) :=
  ⟨by decide, by decide,
    getTopStories_overshoots_short_listing goURL fourStories.GetItem
      { ids := [1, 2, 3, 4], hidden := [] } lastFirst 4 4
      (by decide) (by decide) (by decide),
    by decide⟩

/-- C1 at the failing input: five IDs in a slice of capacity eight, ID 3 a comment,
five stories asked for. The first window is `ids[0:6]`; the story looked up for the
hidden ID 0 is returned, and the result is not the list of the first five qualifying
items of the listing, of which there are four. -/
theorem getTopStories_returns_prefix_of_backing_witness :
    getTopStories goURL fiveOfEight lastFirst 9 5 =
      some (Outcome.ret ([1, 2, 4, 5, 0].map (fun k => parseHNItem goURL (story k))) none,
        [(0, 6)]) ∧
    ([1, 2, 4, 5, 0] : List Int).map (fun k => parseHNItem goURL (story k)) ≠
      (qualifying goURL fiveOfEight.GetItem 0 [1, 2, 3, 4, 5]).take (5 : Int).toNat ∧
    (qualifying goURL fiveOfEight.GetItem 0 [1, 2, 3, 4, 5]).length = 4 ∧
    ∃ l, fiveOfEight.TopItems = .ok l ∧
      [1, 2, 4, 5, 0].map (fun k => parseHNItem goURL (story k)) =
        (qualifying goURL fiveOfEight.GetItem 0 (l.ids ++ l.hidden)).take (5 : Int).toNat :=
  ⟨by decide, by decide, by decide,
    match getTopStories_returns_prefix_of_backing goURL fiveOfEight lastFirst 9 5 _ [(0, 6)]
      (by decide) with
    | ⟨l, h1, h2, _⟩ => ⟨l, h1, h2⟩⟩

/-- C3 at the failing input: four stories upstream, in a slice of capacity four, five
asked for. -/
theorem getTopStories_panics_when_exhausted_witness :
    ((qualifying goURL fourStories.GetItem 0
      ({ ids := [1, 2, 3, 4], hidden := [] } : Listing).backing).length : Int) < 5 ∧
    getTopStories goURL fourStories lastFirst 5 5 = some (Outcome.panic, [(0, 6)]) ∧
    ∃ (pre : List (Int × Int)) (w : Int × Int),
      getTopStories goURL
        { TopItems := .ok { ids := [1, 2, 3, 4], hidden := [] },
          GetItem := fourStories.GetItem }
        lastFirst 5 5 = some (Outcome.panic, pre ++ [w]) ∧
      slice ({ ids := [1, 2, 3, 4], hidden := [] } : Listing).backing w.1 w.2 = none :=
  ⟨by decide, by decide,
    getTopStories_panics_when_exhausted goURL fourStories.GetItem
      { ids := [1, 2, 3, 4], hidden := [] } lastFirst 5 5
      (by decide) (by decide) (by decide)⟩

/-- C4 at concrete inputs: a hit one nanosecond before expiry, a miss at the instant
of expiry. -/
theorem getCachedStories_fresh_hit_witness :
    getCachedStories goURL fourStories lastFirst 5 99 100
        { cache := [parseHNItem goURL (story 9)], cacheExpiration := 100 } 3 =
      { out := some (Outcome.ret [parseHNItem goURL (story 9)] none),
        slot := { cache := [parseHNItem goURL (story 9)], cacheExpiration := 100 },
        fetches := [] } ∧
    (getCachedStories goURL fourStories lastFirst 5 100 101
        { cache := [parseHNItem goURL (story 9)], cacheExpiration := 100 } 3).fetches = [3] :=
  ⟨(getCachedStories_fresh_hit goURL fourStories lastFirst 5 99 100
      { cache := [parseHNItem goURL (story 9)], cacheExpiration := 100 } 3).1 (by decide),
    ((getCachedStories_fresh_hit goURL fourStories lastFirst 5 100 101
      { cache := [parseHNItem goURL (story 9)], cacheExpiration := 100 } 3).2 (by decide)).1⟩

/-- C5 at a concrete input: the listing call fails while stale stories are cached. -/
theorem getCachedStories_failure_keeps_slot_witness :
    (100 : Int) ≤ 100 ∧
    getTopStories goURL listingDown lastFirst 5 3 =
      some (Outcome.ret [] (some "Failed to load top stories"), []) ∧
    getCachedStories goURL listingDown lastFirst 5 100 101
        { cache := [parseHNItem goURL (story 9)], cacheExpiration := 100 } 3 =
      { out := some (Outcome.ret [] (some "Failed to load top stories")),
        slot := { cache := [parseHNItem goURL (story 9)], cacheExpiration := 100 },
        fetches := [3] } :=
  ⟨by decide, by decide,
    getCachedStories_failure_keeps_slot goURL listingDown lastFirst 5 100 101
      { cache := [parseHNItem goURL (story 9)], cacheExpiration := 100 } 3 []
      "Failed to load top stories" [] (by decide) (by decide)⟩

/-- C6 (counterexample). From the cache of process start, a first call reads the clock
at `0s` and, the fetch having taken five seconds, at `5s`; a second call reads it at
`12s`. The calls are more than ten seconds apart, yet `getTopStories` is called once
in all: the first call set `cacheExpiration` to `15s`, not to `0s + 10s`. -/
theorem second_call_after_ten_seconds_still_hits :
    12 * time.Second - 0 > 10 * time.Second ∧
    (getCachedStories goURL fourStories lastFirst 5 0 (5 * time.Second)
      Slot.startup 3).slot.cacheExpiration = 15 * time.Second ∧
    (getCachedStories goURL fourStories lastFirst 5 0 (5 * time.Second)
      Slot.startup 3).slot.cacheExpiration ≠ 0 + 10 * time.Second ∧
    (getCachedStories goURL fourStories lastFirst 5 0 (5 * time.Second)
        Slot.startup 3).fetches.length +
      (getCachedStories goURL fourStories lastFirst 5 (12 * time.Second) (13 * time.Second)
        (getCachedStories goURL fourStories lastFirst 5 0 (5 * time.Second)
          Slot.startup 3).slot 3).fetches.length = 1 := by
  decide

/-- C6 at concrete inputs: the second call comes seven seconds after the first one
finished. -/
theorem two_calls_share_one_fetch_within_ttl_witness :
    Slot.startup.cacheExpiration ≤ 0 ∧
    getCachedStories goURL fourStories lastFirst 5 0 (5 * time.Second) Slot.startup 3 =
      { out := some (Outcome.ret ([1, 2, 3].map (fun k => parseHNItem goURL (story k))) none),
        slot := { cache := [1, 2, 3].map (fun k => parseHNItem goURL (story k)),
                  cacheExpiration := 5 * time.Second + 10 * time.Second },
        fetches := [3] } ∧
    getCachedStories goURL pool100 lastFirst 101 (12 * time.Second) (13 * time.Second)
        (getCachedStories goURL fourStories lastFirst 5 0 (5 * time.Second)
          Slot.startup 3).slot 10 =
      { out := some (Outcome.ret ([1, 2, 3].map (fun k => parseHNItem goURL (story k))) none),
        slot := { cache := [1, 2, 3].map (fun k => parseHNItem goURL (story k)),
                  cacheExpiration := 5 * time.Second + 10 * time.Second },
        fetches := [] } :=
  ⟨by decide,
    (two_calls_share_one_fetch_within_ttl goURL fourStories pool100 lastFirst lastFirst 5 101
      0 (5 * time.Second) (12 * time.Second) (13 * time.Second) Slot.startup 3 10
      ([1, 2, 3].map (fun k => parseHNItem goURL (story k))) [(0, 3)]
      (by decide) (by decide)).1,
    (two_calls_share_one_fetch_within_ttl goURL fourStories pool100 lastFirst lastFirst 5 101
      0 (5 * time.Second) (12 * time.Second) (13 * time.Second) Slot.startup 3 10
      ([1, 2, 3].map (fun k => parseHNItem goURL (story k))) [(0, 3)]
      (by decide) (by decide)).2.1 (by decide)⟩

/-- C7 at a concrete input: three IDs, the lookup of the second one fails, the
goroutines complete last first. -/
theorem getStories_any_completion_order_witness :
    getStories goURL Schedule.reversed flaky [10, 20, 30] =
      [parseHNItem goURL (story 10), parseHNItem goURL (story 30)] ∧
    getStories goURL Schedule.reversed flaky [10, 20, 30] =
      getStories goURL Schedule.inOrder flaky [10, 20, 30] :=
  ⟨by decide,
    (getStories_any_completion_order goURL Schedule.reversed flaky [10, 20, 30] [] [] 0
      "").2.1⟩

/-- C9 at the failing input: one story missing and none accumulated. The code requests
one ID, where `ceil(1 * 1.25)` is 2; the same happens with two and with three stories
missing. With 7378697629483820647 stories missing the product by 5 wraps around and
no ID at all is requested. -/
theorem round_requests_floor_window_witness :
    (1 : Int) ≤ 1 - (([] : List item).length : Int) ∧
    need 1 ([] : List item).length = (1 - (([] : List item).length : Int)) * 5 / 4 ∧
    need 1 0 = 1 ∧ needSpec (1 - 0) = 2 ∧ need 1 0 ≠ needSpec (1 - 0) ∧
    need 2 0 = 2 ∧ need 3 0 = 3 ∧ need 4 0 = 5 ∧
    need 7378697629483820647 0 = 0 :=
  have h2 : needSpec (1 - 0) = 2 := by
    unfold needSpec
    rw [Int.ceil_eq_iff]
    norm_num
  ⟨by decide,
    (round_requests_floor_window goURL fourStories { ids := [1, 2, 3, 4], hidden := [] } 1 0
      lastFirst [] 0 [] (by decide) (by decide) (by decide) (by decide)).2.1,
    by decide, h2, by rw [h2]; decide, by decide, by decide, by decide, by decide⟩

/-- C10 (counterexample). Five IDs in a slice of capacity eight, every lookup a comment,
one story asked for. After `len(ids) + 1 = 6` rounds the function has neither returned
nor panicked; it goes on through the three hidden elements and panics in its ninth
round, on the window `ids[8:9]`. -/
theorem getTopStories_runs_past_len :
    getTopStories goURL fiveComments lastFirst 6 1 = none ∧
    getTopStories goURL fiveComments lastFirst 9 1 =
      some (Outcome.panic,
        [(0, 1), (1, 2), (2, 3), (3, 4), (4, 5), (5, 6), (6, 7), (7, 8), (8, 9)]) ∧
    ([1, 2, 3, 4, 5] : List Int).length + 1 <
      ([(0, 1), (1, 2), (2, 3), (3, 4), (4, 5), (5, 6), (6, 7), (7, 8), (8, 9)] :
        List (Int × Int)).length := by
  decide

/-- C10 at a concrete input: five comments in a slice of capacity eight, one story asked
for, fuel for nine rounds. -/
theorem getTopStories_never_hangs_witness :
    (0 : Int) ≤ 1 ∧ (1 : Int) * 5 < 2 ^ 63 ∧
    ∃ (out : Outcome) (log : List (Int × Int)),
      getTopStories goURL
        { TopItems := .ok { ids := [1, 2, 3, 4, 5], hidden := [0, 0, 0] },
          GetItem := fiveComments.GetItem }
        lastFirst 9 1 = some (out, log) ∧
      log.length ≤ ({ ids := [1, 2, 3, 4, 5], hidden := [0, 0, 0] } : Listing).backing.length
        + 1 :=
  ⟨by decide, by decide,
    match (getTopStories_never_hangs goURL fiveComments.GetItem
      { ids := [1, 2, 3, 4, 5], hidden := [0, 0, 0] } lastFirst 9 1
      (by decide) (by decide) (by decide)).2 with
    | ⟨out, log, h1, h2, _⟩ => ⟨out, log, h1, h2⟩⟩

end Properties

end QuietHN
